import Mathlib

/-!
Verification development for the Gmail Screener repository
(`main.py`, `email_handler.py`, `config.py`).

The Python source is shallowly embedded below.  Text is modelled as
`String`/`List Char`; fallible external calls are modelled by `Option`
results; the run of the pipeline driver `main()` is modelled as a pure
function from an environment (outcomes of the external collaborators) to
a trace of observable events plus an optional uncaught exception.

All definitions are executable and structurally recursive so that every
statement can be evaluated on concrete inputs by `decide` / `rfl`.
-/

namespace GmailScreener

/-! ### Configuration (`config.py`) -/

/-- `config.PDF_FILENAME` -/
def PDF_FILENAME : String := "forwarded_emails.pdf"

/-- `config.MARK_AS_READ` -/
def MARK_AS_READ : Bool := true

/-! ### `html.escape` (used by `sanitize_text`)

`html.escape(s, quote=True)` replaces `&`, `<`, `>`, `"`, `'` by their
entity references.  The sequential `str.replace` passes of CPython are
equivalent to the single character-wise pass below because `&` is
replaced first and the later replacements never re-process the inserted
entity text. -/

def escapeChar (c : Char) : List Char :=
  if c = '&' then "&amp;".data
  else if c = '<' then "&lt;".data
  else if c = '>' then "&gt;".data
  else if c = '"' then "&quot;".data
  else if c = '\'' then "&#x27;".data
  else [c]

/-- `html.escape` on the character list level. -/
def htmlEscapeCs (cs : List Char) : List Char :=
  (cs.map escapeChar).flatten

/-- `html.escape(s, quote=True)`. -/
def html_escape (s : String) : String := ⟨htmlEscapeCs s.data⟩

/-! ### `HTMLStripper` / `strip_html_tags` (`email_handler.py` 95-114)

`HTMLStripper` is an `html.parser.HTMLParser` with
`convert_charrefs=True` whose `handle_data` collects the data segments;
`strip_html_tags` feeds the input and joins the collected segments.
The model below is the core of that parser on the inputs exercised
here: a `<` that opens a tag construct (next character a letter, `/`,
`!` or `?`) starts a tag that is consumed up to the next `>` and
dropped; a lone `<` is emitted as data; character references in data
are resolved (`convert_charrefs=True`); everything else is data.
A tag left unterminated at end of input stays in the parser buffer and
is never flushed (the source never calls `close()`), so it is dropped. -/

def tagStartChar (c : Char) : Bool :=
  c.isAlpha || c = '/' || c = '!' || c = '?'

/-- Named character references resolved by the parser (core table). -/
def namedCharRef (nm : List Char) : Option Char :=
  if nm = "amp".data then some '&'
  else if nm = "lt".data then some '<'
  else if nm = "gt".data then some '>'
  else if nm = "quot".data then some '"'
  else if nm = "apos".data then some '\''
  else none

def digitsToNat (ds : List Char) : Nat :=
  ds.foldl (fun acc c => acc * 10 + (c.toNat - '0'.toNat)) 0

/-- Try to read a character reference right after a `&`.
Returns the referenced character and the number of consumed characters. -/
def tryCharref (cs : List Char) : Option (Char × Nat) :=
  match cs with
  | c :: rest =>
    if c = '#' then
      let ds := rest.takeWhile Char.isDigit
      if ds.isEmpty then none
      else
        match rest.drop ds.length with
        | d :: _ =>
          if d = ';' then
            let n := digitsToNat ds
            if n < 1114112 then some (Char.ofNat n, ds.length + 2) else none
          else none
        | [] => none
    else
      let nm := cs.takeWhile Char.isAlpha
      if nm.isEmpty then none
      else
        match cs.drop nm.length with
        | d :: _ =>
          if d = ';' then (namedCharRef nm).map (fun ch => (ch, nm.length + 1))
          else none
        | [] => none
  | [] => none

/-- One-character-per-step state machine of the tag stripper.
`inTag = true` means we are inside `<...>` and discard up to `>`;
`skip > 0` means that many input characters were already consumed by a
character reference and must be dropped. -/
def stripGo : Bool → Nat → List Char → List Char
  | _, _, [] => []
  | inTag, Nat.succ s, _ :: rest => stripGo inTag s rest
  | true, 0, c :: rest =>
    if c = '>' then stripGo false 0 rest else stripGo true 0 rest
  | false, 0, c :: rest =>
    if c = '<' then
      match rest with
      | [] => []
      | c2 :: _ =>
        if tagStartChar c2 then stripGo true 0 rest
        else '<' :: stripGo false 0 rest
    else if c = '&' then
      match tryCharref rest with
      | some (ch, k) => ch :: stripGo false k rest
      | none => '&' :: stripGo false 0 rest
    else c :: stripGo false 0 rest

def stripHtmlCs (cs : List Char) : List Char := stripGo false 0 cs

/-- `strip_html_tags` (`email_handler.py` 111-114). -/
def strip_html_tags (s : String) : String := ⟨stripHtmlCs s.data⟩

/-- `sanitize_text` (`email_handler.py` 116-125): strip HTML tags, then
escape the renderer-reserved characters.  `if not text: return ""`. -/
def sanitize_text (s : String) : String :=
  if s = "" then "" else html_escape (strip_html_tags s)

/-! ### Dollar-amount extraction (`email_handler.py` 210)

`re.findall(r'\$\d+(?:,\d{3})*(?:\.\d{2})?', safe_full_body)`.

For this pattern the backtracking search of `re` coincides with
component-wise greedy matching: after the maximal digit run, after each
complete `,ddd` group and after the optional `.dd` fraction the
remainder of the pattern can always succeed (everything left is
optional), so the engine never backtracks.  `findall` scans left to
right and resumes after each match, so matches never overlap. -/

/-- Greedy match of the optional fraction `(?:\.\d{2})?`:
returns the consumed characters and the remainder. -/
def matchFrac (cs : List Char) : List Char × List Char :=
  match cs with
  | c :: a :: b :: rest =>
    if c = '.' && a.isDigit && b.isDigit then ([c, a, b], rest) else ([], cs)
  | _ => ([], cs)

/-- Greedy match of `(?:,\d{3})*(?:\.\d{2})?`. -/
def matchTail (cs : List Char) : List Char × List Char :=
  match cs with
  | c :: a :: b :: d :: rest =>
    if c = ',' && a.isDigit && b.isDigit && d.isDigit then
      let p := matchTail rest
      (c :: a :: b :: d :: p.1, p.2)
    else matchFrac cs
  | _ => matchFrac cs

/-- Match of the full pattern `\$\d+(?:,\d{3})*(?:\.\d{2})?` anchored at
the start of `cs`: the matched token and the remainder, if any. -/
def reMatchAt (cs : List Char) : Option (List Char × List Char) :=
  match cs with
  | c :: rest =>
    if c = '$' then
      let ds := rest.takeWhile Char.isDigit
      if ds.isEmpty then none
      else
        let p := matchTail (rest.dropWhile Char.isDigit)
        some (c :: (ds ++ p.1), p.2)
    else none
  | [] => none

/-- Length of the match of the amount pattern at the start of `cs`
(`0` when there is no match; a match always has length at least 2). -/
def reMatchLen (cs : List Char) : Nat :=
  match reMatchAt cs with
  | some p => p.1.length
  | none => 0

/-- The scanning loop of `re.findall`: at each position emit the match
starting there, if any, and resume right after it (`skip` counts the
characters of the current match that are still to be passed over). -/
def reFindGo : List Char → Nat → List (List Char)
  | [], _ => []
  | _ :: rest, Nat.succ s => reFindGo rest s
  | c :: rest, 0 =>
    let k := reMatchLen (c :: rest)
    if k = 0 then reFindGo rest 0
    else (c :: rest).take k :: reFindGo rest (k - 1)

/-- `re.findall(r'\$\d+(?:,\d{3})*(?:\.\d{2})?', s)`
(`email_handler.py` 210). -/
def reFindAmounts (s : String) : List String :=
  (reFindGo s.data 0).map (fun l => ⟨l⟩)

/-! ### The amount pattern as the specification words it

"optional `$`, one or more digits optionally grouped in triples
separated by commas, optionally followed by a decimal point and exactly
two digits", collected as the non-overlapping left-to-right (longest)
matches.  The scanner below is written from the specification: at each
position it looks for the longest prefix that is a token of the
pattern, by trying every prefix length.  `requireDollar` selects
between the mandatory-`$` variant and the optional-`$` variant. -/

/-- Membership of `(,\d{3})*(\.\d{2})?` (the part after the leading
digit run), as a grammar on the whole candidate token. -/
def tailOk (u : List Char) : Bool :=
  match u with
  | [] => true
  | x :: xs =>
    if x = ',' then
      match xs with
      | a :: b :: c :: rest => a.isDigit && b.isDigit && c.isDigit && tailOk rest
      | _ => false
    else if x = '.' then
      match xs with
      | [a, b] => a.isDigit && b.isDigit
      | _ => false
    else false

/-- Token membership for the amount pattern, with the currency sign
mandatory (`requireDollar = true`, as the source regex has it) or
optional (`requireDollar = false`, as the specification words it). -/
def amountTok (requireDollar : Bool) (tok : List Char) : Bool :=
  match tok with
  | [] => false
  | c :: body =>
    if c = '$' then
      !(body.takeWhile Char.isDigit).isEmpty &&
        tailOk (body.dropWhile Char.isDigit)
    else
      !requireDollar && !((c :: body).takeWhile Char.isDigit).isEmpty &&
        tailOk ((c :: body).dropWhile Char.isDigit)

/-- Largest `k ≤ n` with `k ≥ 1` and `P (cs.take k)`, else `0`. -/
def tryLens (P : List Char → Bool) (cs : List Char) : Nat → Nat
  | 0 => 0
  | Nat.succ k => if P (cs.take (k + 1)) then k + 1 else tryLens P cs k

/-- Length of the longest prefix of `cs` satisfying `P` (`0` if none). -/
def longestMatchLen (P : List Char → Bool) (cs : List Char) : Nat :=
  tryLens P cs cs.length

/-- Specification-side scanner: collect the non-overlapping
left-to-right longest matches of the token language `P`. -/
def scanGo (P : List Char → Bool) : List Char → Nat → List (List Char)
  | [], _ => []
  | _ :: rest, Nat.succ s => scanGo P rest s
  | c :: rest, 0 =>
    let k := longestMatchLen P (c :: rest)
    if k = 0 then scanGo P rest 0
    else (c :: rest).take k :: scanGo P rest (k - 1)

/-- The monetary-amount sequence as the specification describes it. -/
def specAmounts (requireDollar : Bool) (s : String) : List String :=
  (scanGo (amountTok requireDollar) s.data 0).map (fun l => ⟨l⟩)

/-! ### Expense lines (`email_handler.py` 218-222) -/

def expense_keywords : List String :=
  ["total", "amount due", "paid", "charged", "invoice", "receipt",
   "order", "purchase"]

/-- `str.splitlines` restricted to `\n` boundaries (the only line
boundary occurring in this development). -/
def splitGo (acc : List Char) : List Char → List (List Char)
  | [] => if acc.isEmpty then [] else [acc.reverse]
  | c :: rest =>
    if c = '\n' then acc.reverse :: splitGo [] rest
    else splitGo (c :: acc) rest

def splitLinesCs (cs : List Char) : List (List Char) := splitGo [] cs

/-- Does `needle` occur at the head of `hay`? -/
def startsWithCs : List Char → List Char → Bool
  | [], _ => true
  | _ :: _, [] => false
  | a :: as_, b :: bs => a = b && startsWithCs as_ bs

/-- Python `needle in hay` on strings. -/
def hasSubCs (needle : List Char) : List Char → Bool
  | [] => needle.isEmpty
  | c :: rest => startsWithCs needle (c :: rest) || hasSubCs needle rest

/-- Python `str.strip()`. -/
def trimCs (cs : List Char) : List Char :=
  ((cs.dropWhile Char.isWhitespace).reverse.dropWhile Char.isWhitespace).reverse

/-- The expense-line loop of `create_pdf_from_emails`
(`email_handler.py` 219-222): keep every line whose lowercase form
contains one of the keywords, stripped of surrounding whitespace. -/
def expenseLinesOf (s : String) : List String :=
  ((splitLinesCs s.data).filter
      (fun l => expense_keywords.any
        (fun k => hasSubCs k.data (l.map Char.toLower)))).map
    (fun l => (⟨trimCs l⟩ : String))

/-! ### Criteria and `build_search_query` (`main.py` 38-57) -/

structure DateRange where
  after : Option String
  before : Option String

structure TermGroup where
  terms : List String
  logical_operator : Option String

/-- The criteria dictionary.  A present `include`/`exclude` key whose
dictionary lacks `terms` behaves exactly like one with empty `terms`
(no fragment is emitted either way), so both are modelled by
`terms = []`. -/
structure Criteria where
  date_range : Option DateRange
  include_ : Option TermGroup
  exclude : Option TermGroup

/-- `build_search_query` (`main.py` 38-57). -/
def build_search_query (c : Criteria) : String :=
  let dateParts : List String :=
    match c.date_range with
    | none => []
    | some dr =>
      (match dr.after with
       | some a => ["after:" ++ a]
       | none => []) ++
      (match dr.before with
       | some b => ["before:" ++ b]
       | none => [])
  let incParts : List String :=
    match c.include_ with
    | none => []
    | some g =>
      if g.terms.isEmpty then []
      else ["(" ++ String.intercalate
              (" " ++ g.logical_operator.getD "AND" ++ " ") g.terms ++ ")"]
  let excParts : List String :=
    match c.exclude with
    | none => []
    | some g =>
      if g.terms.isEmpty then []
      else ["-(" ++ String.intercalate
              (" " ++ g.logical_operator.getD "OR" ++ " ") g.terms ++ ")"]
  String.intercalate " " (dateParts ++ incParts ++ excParts)

/-! Specification-side query fragments (§4.1 of the spec): the four
optional fragments, in the fixed order after, before, include,
exclude, joined by single spaces. -/

def afterFragment (c : Criteria) : Option String :=
  match c.date_range with
  | some dr => dr.after.map (fun a => "after:" ++ a)
  | none => none

def beforeFragment (c : Criteria) : Option String :=
  match c.date_range with
  | some dr => dr.before.map (fun b => "before:" ++ b)
  | none => none

def includeFragment (c : Criteria) : Option String :=
  match c.include_ with
  | none => none
  | some g =>
    if g.terms.isEmpty then none
    else some ("(" ++ String.intercalate
        (" " ++ g.logical_operator.getD "AND" ++ " ") g.terms ++ ")")

def excludeFragment (c : Criteria) : Option String :=
  match c.exclude with
  | none => none
  | some g =>
    if g.terms.isEmpty then none
    else some ("-(" ++ String.intercalate
        (" " ++ g.logical_operator.getD "OR" ++ " ") g.terms ++ ")")

/-- The compiled query per the specification: the four fragments in
order, absent ones contributing nothing. -/
def specFragments (c : Criteria) : List String :=
  [afterFragment c, beforeFragment c, includeFragment c,
   excludeFragment c].filterMap id

def emptyCriteria : Criteria := ⟨none, none, none⟩

/-- Criteria of the §8 scenario:
`{dateRange:{after:"2024/01/01"}, include:{terms:["invoice","receipt"]}}`. -/
def exampleCriteria : Criteria :=
  ⟨some ⟨some "2024/01/01", none⟩, some ⟨["invoice", "receipt"], none⟩, none⟩

/-! ### PDF artifact naming (`email_handler.py` 166-170) -/

/-- `os.path.splitext(...)[0]` for names with an ordinary extension. -/
def splitextBase (s : String) : String :=
  if s.data.contains '.' then
    ⟨((s.data.reverse.dropWhile (fun c => !(c = '.'))).drop 1).reverse⟩
  else s

def pdf_base_name : String := splitextBase PDF_FILENAME

/-- `date_range['after'].replace('/','')`. -/
def removeSlashes (s : String) : String :=
  ⟨s.data.filter (fun c => !(c = '/'))⟩

/-- Artifact-name choice of `create_pdf_from_emails`
(`email_handler.py` 166-170).  The Python condition is
`date_range and "after" in date_range and "before" in date_range`;
the truthiness of the dictionary is the presence of at least one key. -/
def pdf_file_name (dr : DateRange) : String :=
  if (dr.after.isSome || dr.before.isSome) && dr.after.isSome
      && dr.before.isSome then
    pdf_base_name ++ "_" ++ removeSlashes (dr.after.getD "") ++ "_"
      ++ removeSlashes (dr.before.getD "") ++ ".pdf"
  else PDF_FILENAME

/-! ### Raw messages and body normalization
(`get_email_content`, `email_handler.py` 128-152) -/

structure Header where
  name : String
  value : String

/-- A body part: MIME type, optionally present decoded payload
(`'data' in part['body']`), and nested sub-parts. -/
inductive Part where
  | mk (mimeType : String) (bodyData : Option String) (parts : List Part)

def Part.mimeType : Part → String
  | .mk m _ _ => m

def Part.bodyData : Part → Option String
  | .mk _ d _ => d

def Part.parts : Part → List Part
  | .mk _ _ ps => ps

structure Payload where
  headers : List Header
  bodyData : Option String
  parts : List Part

structure RawEmail where
  payload : Payload
  snippet : String

/-- Contribution of one top-level part to `full_body`
(`email_handler.py` 139-144): `text/plain` payloads verbatim,
`text/html` payloads tag-stripped, everything else nothing. -/
def partContrib (p : Part) : String :=
  if p.mimeType = "text/plain" then
    match p.bodyData with
    | some d => d
    | none => ""
  else if p.mimeType = "text/html" then
    match p.bodyData with
    | some d => strip_html_tags d
    | none => ""
  else ""

/-- `full_body` as assembled by `get_email_content`
(`email_handler.py` 137-146): iterate over the top-level parts if
there are any, otherwise use the single body payload (tag-stripped). -/
def fullBodyOf (pl : Payload) : String :=
  if pl.parts.isEmpty then
    match pl.bodyData with
    | some d => strip_html_tags d
    | none => ""
  else String.join (pl.parts.map partContrib)

/-- Leaf handling shared with `partContrib`, on the fields of a part. -/
def partBase (m : String) (d : Option String) : String :=
  if m = "text/plain" then d.getD ""
  else if m = "text/html" then
    match d with
    | some x => strip_html_tags x
    | none => ""
  else ""

mutual

/-- Modelled from the spec (§4.2 step 1): the depth-first walk over the
body-part tree, which the source does not implement (it only iterates
over the top-level parts).  Leaf handling is identical to
`partContrib`; the only difference is the recursion into sub-parts. -/
def deepContrib : Part → String
  | Part.mk m d ps => partBase m d ++ deepList ps

def deepList : List Part → String
  | [] => ""
  | p :: ps => deepContrib p ++ deepList ps

end

/-- Modelled from the spec (§4.2): normalization with a depth-first
walk of all body parts. -/
def payloadDeepBody (pl : Payload) : String :=
  if pl.parts.isEmpty then
    match pl.bodyData with
    | some d => strip_html_tags d
    | none => ""
  else deepList pl.parts

/-- A payload consisting solely of top-level `text/plain` parts. -/
def plainPayload (ds : List String) : Payload :=
  ⟨[], none, ds.map (fun d => Part.mk "text/plain" (some d) [])⟩

/-! ### Report sections (`create_pdf_from_emails`, lines 190-231) -/

structure Section where
  subject : String
  date : String
  from_email : String
  amounts : List String
  expense_info : List String
  snippet : String

/-- First header with the given name, else the `N/A` placeholder. -/
def headerLookup (hs : List Header) (nm : String) : String :=
  match hs.find? (fun h => h.name == nm) with
  | some h => h.value
  | none => "N/A"

/-- One message's block of the PDF story
(`email_handler.py` 190-231). -/
def mkSection (e : RawEmail) : Section :=
  let safe_full_body := sanitize_text (fullBodyOf e.payload)
  { subject := sanitize_text (headerLookup e.payload.headers "Subject")
    date := sanitize_text (headerLookup e.payload.headers "Date")
    from_email := sanitize_text (headerLookup e.payload.headers "From")
    amounts := reFindAmounts safe_full_body
    expense_info := expenseLinesOf safe_full_body
    snippet := sanitize_text e.snippet }

/-! ### The pipeline driver (`main.py` 59-125)

The environment fixes the outcomes of the external collaborators; the
run is the induced trace.  `send_email_with_attachment` is defined with
three required parameters (`email_handler.py` 242) but `main.py` 114
calls it with two, so reaching step 5 raises an uncaught `TypeError`
at the call itself — before the function body (and its internal
`try/except`) can run. -/

inductive PyErr where
  | typeError
  deriving DecidableEq

inductive Ev where
  /-- `doc.build` is reached with the given artifact name. -/
  | pdfBuildAttempted (name : String)
  | pdfBuildOk (name : String)
  | pdfBuildFailed
  /-- Control reaches the `send_email_with_attachment(...)` call of
  `main.py` 114. -/
  | deliveryCallAttempted
  /-- The send API reported success (a sent message was returned). -/
  | sendApiSucceeded
  | markedRead (ids : List String)
  deriving DecidableEq

/-- Outcomes of the external collaborators for one run. -/
structure Env where
  /-- `criteria.json` loaded and parsed (`none`: missing/unparsable). -/
  criteriaLoad : Option Criteria
  /-- Did the search API call succeed?  (`search_emails` catches
  `HttpError` and returns `[]`.) -/
  searchOk : Bool
  /-- Search results: message id together with the outcome of the
  later `get_email_content` fetch (`none`: `HttpError`, fetch failed). -/
  searchResults : List (String × Option RawEmail)
  /-- Does `doc.build` succeed? -/
  buildOk : Bool

/-- The fetch loop of `main.py` 95-103: keep the successfully fetched
messages, in fetch order. -/
def successEmails (rs : List (String × Option RawEmail)) :
    List (String × RawEmail) :=
  rs.filterMap (fun ir => ir.2.map (fun e => (ir.1, e)))

structure RunResult where
  trace : List Ev
  sections : List Section
  err : Option PyErr

/-- One run of `main()` (`main.py` 59-125). -/
def main_run (env : Env) : RunResult :=
  match env.criteriaLoad with
  | none => ⟨[], [], none⟩
  | some crit =>
    let msgs := if env.searchOk then env.searchResults else []
    if msgs.isEmpty then ⟨[], [], none⟩
    else
      let emails := successEmails msgs
      if emails.isEmpty then ⟨[], [], none⟩
      else
        let dr := crit.date_range.getD ⟨none, none⟩
        let name := pdf_file_name dr
        let secs := emails.map (fun p => mkSection p.2)
        let buildEvs :=
          if env.buildOk then [Ev.pdfBuildAttempted name, Ev.pdfBuildOk name]
          else [Ev.pdfBuildAttempted name, Ev.pdfBuildFailed]
        ⟨buildEvs ++ [Ev.deliveryCallAttempted], secs, some PyErr.typeError⟩

def isMarkEv : Ev → Bool
  | .markedRead _ => true
  | _ => false

def isSendOkEv : Ev → Bool
  | .sendApiSucceeded => true
  | _ => false

/-! Concrete inputs used by counterexamples and witnesses. -/

def simpleEmail : RawEmail :=
  ⟨⟨[⟨"Subject", "Invoice"⟩], none,
    [Part.mk "text/plain" (some "Total $5") []]⟩, "snip"⟩

def envSendBug : Env :=
  ⟨some emptyCriteria, true, [("m1", some simpleEmail)], true⟩

def envBuildFail : Env :=
  ⟨some emptyCriteria, true, [("m1", some simpleEmail)], false⟩

def envOneFetchFails : Env :=
  ⟨some exampleCriteria, true,
   [("m1", some simpleEmail), ("m2", none), ("m3", some simpleEmail)],
   true⟩

def plainTagPayload : Payload :=
  ⟨[], none, [Part.mk "text/plain" (some "a <b> c") []]⟩

def htmlWsPayload : Payload :=
  ⟨[], none, [Part.mk "text/html" (some "<p>a  b</p>") []]⟩

def nestedPayload : Payload :=
  ⟨[], none,
   [Part.mk "multipart/alternative" none
     [Part.mk "text/plain" (some "hi") []]]⟩

/-! ## Theorems -/

/-! ### C9: the criteria-to-query compiler -/

theorem build_query_spec (c : Criteria) :
    build_search_query c = String.intercalate " " (specFragments c) := by
  obtain ⟨dr, inc, exc⟩ := c
  rcases dr with _ | ⟨_ | a, _ | b⟩ <;>
    rcases inc with _ | ⟨_ | ⟨t1, ts1⟩, op1⟩ <;>
      rcases exc with _ | ⟨_ | ⟨t2, ts2⟩, op2⟩ <;>
        simp [build_search_query, specFragments, afterFragment, beforeFragment,
          includeFragment, excludeFragment, List.filterMap]

/-- C9: for every `Criteria` value the compiled query is the date-after,
date-before, include and exclude fragments in exactly that order joined
by single spaces, absent or empty sections contributing nothing; the
empty criteria compile to the empty string, and the §8 scenario
criteria compile to `after:2024/01/01 (invoice AND receipt)`. -/
theorem c9_query_fragment_order :
    (∀ c : Criteria,
        build_search_query c = String.intercalate " " (specFragments c))
    ∧ build_search_query emptyCriteria = ""
    ∧ build_search_query exampleCriteria
        = "after:2024/01/01 (invoice AND receipt)" :=
  ⟨build_query_spec, by decide, by decide⟩

/-! ### C10: artifact naming -/

/-- C10 counterexample: a date range carrying only the `after` bound is
supplied (its `after` field is present), yet the artifact name is the
default `PDF_FILENAME` rather than a name derived from the range — the
claim's "a date range with only one bound present still yields a
derived name" and its "equals the default base name exactly when no
date range was supplied" both fail here. -/
theorem c10_counterexample :
    pdf_file_name ⟨some "2024/01/01", none⟩ = PDF_FILENAME
    ∧ (DateRange.mk (some "2024/01/01") none).after.isSome = true := by
  exact ⟨rfl, rfl⟩

/-- C10 amended: the derived artifact name (base name, `_`, after token
with slashes removed, `_`, before token with slashes removed, `.pdf`)
is produced exactly when both bounds of the date range are present;
otherwise — including a range with only one bound — the name is the
default `PDF_FILENAME`. -/
theorem c10_amended_naming :
    pdf_base_name = "forwarded_emails"
    ∧ (∀ a b : String,
        pdf_file_name ⟨some a, some b⟩
          = pdf_base_name ++ "_" ++ removeSlashes a ++ "_"
              ++ removeSlashes b ++ ".pdf")
    ∧ (∀ dr : DateRange, (dr.after.isSome && dr.before.isSome) = false →
        pdf_file_name dr = PDF_FILENAME) := by
  refine ⟨rfl, fun a b => by simp [pdf_file_name], fun dr h => ?_⟩
  obtain ⟨_ | a, _ | b⟩ := dr <;> simp_all [pdf_file_name]

/-- C10 witness: the amended theorem applied at a one-bound range. -/
theorem c10_amended_naming_witness :
    pdf_file_name ⟨none, some "2024/02/02"⟩ = PDF_FILENAME :=
  c10_amended_naming.2.2 ⟨none, some "2024/02/02"⟩ rfl

/-! ### C7: depth of the body-part walk -/

/-- C7 counterexample: a `text/plain` part nested inside a top-level
`multipart/alternative` container contributes nothing to the
normalized body — the loop of `get_email_content` only inspects the
top-level parts — whereas the specified depth-first walk would collect
`"hi"`. -/
theorem c7_counterexample :
    fullBodyOf nestedPayload = ""
    ∧ payloadDeepBody nestedPayload = "hi"
    ∧ fullBodyOf nestedPayload ≠ payloadDeepBody nestedPayload := by
  decide

/-- A part with its sub-part list erased. -/
def pruneParts (p : Part) : Part :=
  match p with
  | .mk m d _ => .mk m d []

/-- C7 amended: normalization walks only the top-level parts; the
normalized body is invariant under erasing all nested sub-parts, so
parts at nesting depth greater than one never contribute. -/
theorem c7_amended_top_level_only (pl : Payload) :
    fullBodyOf pl
      = fullBodyOf ⟨pl.headers, pl.bodyData, pl.parts.map pruneParts⟩ := by
  obtain ⟨hs, bd, ps⟩ := pl
  have hc : ∀ p : Part, partContrib (pruneParts p) = partContrib p := by
    intro p; cases p; rfl
  cases ps with
  | nil => rfl
  | cons p ps =>
    have h2 : List.map (fun x => partContrib (pruneParts x)) ps
        = List.map partContrib ps :=
      List.map_congr_left (fun a _ => hc a)
    simp [fullBodyOf, Function.comp_def, hc p, h2]

/-! ### C5: plain-text parts and the final sanitization -/

/-- C5 counterexample: a message whose single `text/plain` part is
`"a <b> c"` renders as `"a  c"`: the angle-bracketed substring is
removed by `sanitize_text`'s tag stripping, so the payload does not
appear modified only by escaping (that would be `"a &lt;b&gt; c"`),
and characters of the plain-text part are dropped. -/
theorem c5_counterexample :
    sanitize_text (fullBodyOf plainTagPayload) = "a  c"
    ∧ sanitize_text (fullBodyOf plainTagPayload) ≠ html_escape "a <b> c" := by
  decide

/-- C5 amended: each `text/plain` part's decoded payload is appended
verbatim to the accumulated body, but the rendered body then applies
tag stripping to the whole accumulation before escaping, so
angle-bracketed substrings of plain text are removed rather than
escaped. -/
theorem c5_amended_plain_parts (ds : List String) :
    fullBodyOf (plainPayload ds) = String.join ds
    ∧ sanitize_text (String.join ds)
        = html_escape (strip_html_tags (String.join ds)) := by
  constructor
  · cases ds with
    | nil => rfl
    | cons d ds =>
      have h1 : ∀ x : String,
          partContrib (Part.mk "text/plain" (some x) []) = x := fun x => rfl
      have h2 : List.map
            (fun x : String => partContrib (Part.mk "text/plain" (some x) []))
            ds = ds := by
        simp [h1]
      simp [plainPayload, fullBodyOf, Function.comp_def, h1, h2]
  · by_cases h : String.join ds = ""
    · rw [h]; rfl
    · simp [sanitize_text, h]

/-! ### C6: `text/html` normalization -/

/-- C6 counterexample: the HTML part `"<p>a  b</p>"` contributes
`"a  b"` — the interior run of whitespace is preserved as-is — whereas
the claimed collapse of whitespace runs to a single space would give
`"a b"`. -/
theorem c6_counterexample :
    fullBodyOf htmlWsPayload = "a  b"
    ∧ fullBodyOf htmlWsPayload ≠ "a b" := by
  decide

def cleanChar (c : Char) : Bool := !(c = '<') && !(c = '&')

theorem strip_clean_aux (t : List Char) (h : t.all cleanChar = true) :
    stripGo false 0 (t ++ ('<' :: '/' :: 'p' :: '>' :: [])) = t := by
  induction t with
  | nil => rfl
  | cons c t ih =>
    simp only [List.all_cons, Bool.and_eq_true, cleanChar,
      Bool.not_eq_true', decide_eq_false_iff_not] at h
    simp [stripGo, h.1.1, h.1.2, ih h.2]

/-- C6 amended: markup tags are removed and entity references are
resolved, but the text data itself — including every whitespace
character — is preserved verbatim: no whitespace collapsing and no
trimming takes place. -/
theorem c6_amended_no_ws_collapse :
    (∀ t : String, t.data.all cleanChar = true →
        strip_html_tags ("<p>" ++ t ++ "</p>") = t)
    ∧ strip_html_tags "&amp;" = "&"
    ∧ strip_html_tags "<p>a\n\n  b</p>" = "a\n\n  b" := by
  refine ⟨fun t ht => ?_, by decide, by decide⟩
  have hdata : ("<p>" ++ t ++ "</p>").data
      = '<' :: 'p' :: '>' :: (t.data ++ ('<' :: '/' :: 'p' :: '>' :: [])) := by
    simp [String.data_append]
  show (⟨stripGo false 0 (("<p>" ++ t ++ "</p>").data)⟩ : String) = t
  rw [hdata]
  have h0 : stripGo false 0
      ('<' :: 'p' :: '>' :: (t.data ++ ('<' :: '/' :: 'p' :: '>' :: [])))
      = stripGo false 0 (t.data ++ ('<' :: '/' :: 'p' :: '>' :: [])) := rfl
  rw [h0, strip_clean_aux t.data ht]

/-- C6 witness: the amended theorem applied at `"a \n b"`. -/
theorem c6_amended_no_ws_collapse_witness :
    ("a \n b" : String).data.all cleanChar = true
    ∧ strip_html_tags ("<p>" ++ "a \n b" ++ "</p>") = "a \n b" :=
  ⟨by decide, c6_amended_no_ws_collapse.1 "a \n b" (by decide)⟩

/-! ### C2, C3, C4, C8: the pipeline driver -/

/-- C2: in every run of the driver, the trace never contains a
mark-as-read event without a successful-delivery event; in fact the
send call of `main.py` 114 always raises (see C3), so
`mark_emails_as_read` is never reached at all, and even on the
intended path line 117 gates it on a returned sent message. -/
theorem c2_no_mark_without_delivery (env : Env) :
    ((main_run env).trace.any isMarkEv
      && !((main_run env).trace.any isSendOkEv)) = false := by
  have h : (main_run env).trace.any isMarkEv = false := by
    rcases env with ⟨cl, so, sr, bo⟩
    rcases cl with _ | crit
    · rfl
    · simp only [main_run]
      repeat' split
      all_goals simp_all [isMarkEv]
  simp [h]

/-- C3: code bug.  A run that reaches the delivery step terminates with
an uncaught `TypeError`: `main.py` 114 passes two arguments to the
three-parameter `send_email_with_attachment`, so the exception is
raised at the call itself and the function's internal `try/except`
never runs — contradicting the claimed total, boundary-caught
invocation. -/
theorem c3_send_call_raises_uncaught :
    (main_run envSendBug).err = some PyErr.typeError
    ∧ Ev.deliveryCallAttempted ∈ (main_run envSendBug).trace
    ∧ (main_run envSendBug).trace.any isSendOkEv = false := by
  decide

/-- C4: code bug.  When the document build fails the run does not abort
at that point: `main()` ignores the `None` returned by
`create_pdf_from_emails` and proceeds to the delivery call. -/
theorem c4_build_failure_not_aborted :
    Ev.pdfBuildFailed ∈ (main_run envBuildFail).trace
    ∧ Ev.deliveryCallAttempted ∈ (main_run envBuildFail).trace
    ∧ (main_run envBuildFail).err = some PyErr.typeError := by
  decide

/-- C8: a fetch failure of a single message excludes only that message:
the sections assembled for the PDF are exactly one per successfully
fetched message, in fetch order, and the run still proceeds to the
rendering step and to the delivery call. -/
theorem c8_single_fetch_failure (env : Env) (crit : Criteria)
    (h1 : env.criteriaLoad = some crit) (h2 : env.searchOk = true)
    (h3 : env.searchResults.isEmpty = false)
    (h4 : (successEmails env.searchResults).isEmpty = false) :
    (main_run env).sections
        = (successEmails env.searchResults).map (fun p => mkSection p.2)
    ∧ Ev.pdfBuildAttempted (pdf_file_name (crit.date_range.getD ⟨none, none⟩))
        ∈ (main_run env).trace
    ∧ Ev.deliveryCallAttempted ∈ (main_run env).trace := by
  rcases env with ⟨cl, so, sr, bo⟩
  simp only at h1 h2 h3 h4
  subst h1 h2
  simp only [main_run, h3, h4, Bool.false_eq_true, if_true, if_false]
  cases bo <;> simp

/-- C8 witness: three search results with the middle fetch failing. -/
theorem c8_single_fetch_failure_witness :
    (main_run envOneFetchFails).sections
        = (successEmails envOneFetchFails.searchResults).map
            (fun p => mkSection p.2)
    ∧ Ev.pdfBuildAttempted
        (pdf_file_name (exampleCriteria.date_range.getD ⟨none, none⟩))
        ∈ (main_run envOneFetchFails).trace
    ∧ Ev.deliveryCallAttempted ∈ (main_run envOneFetchFails).trace :=
  c8_single_fetch_failure envOneFetchFails exampleCriteria rfl rfl rfl rfl

/-! ### C1: monetary-amount extraction

The plan: the greedy matcher `reMatchAt` embedded from the source regex
produces, at every position, exactly the longest prefix belonging to
the mandatory-`$` token language `amountTok true`; hence the `findall`
scan `reFindGo` coincides with the specification-side longest-match
scanner `scanGo`.  With the optional-`$` language (`amountTok false`,
the wording of the specification/claim) the two differ, e.g. on
`"1234.56"`. -/

theorem matchFrac_append : ∀ cs : List Char,
    (matchFrac cs).1 ++ (matchFrac cs).2 = cs
  | [] => rfl
  | [_] => rfl
  | [_, _] => rfl
  | x :: a :: b :: rest => by
    simp only [matchFrac]
    split <;> simp

theorem matchTail_append : ∀ cs : List Char,
    (matchTail cs).1 ++ (matchTail cs).2 = cs
  | [] => matchFrac_append []
  | [x] => matchFrac_append [x]
  | [x, a] => matchFrac_append [x, a]
  | [x, a, b] => matchFrac_append [x, a, b]
  | x :: a :: b :: d :: rest => by
    simp only [matchTail]
    split
    · simp [matchTail_append rest]
    · exact matchFrac_append (x :: a :: b :: d :: rest)

theorem matchFrac_tailOk : ∀ cs : List Char, tailOk (matchFrac cs).1 = true
  | [] => rfl
  | [_] => rfl
  | [_, _] => rfl
  | x :: a :: b :: rest => by
    simp only [matchFrac]
    split
    · next h =>
      simp only [Bool.and_eq_true, decide_eq_true_eq] at h
      obtain ⟨⟨h1, h2⟩, h3⟩ := h
      subst h1
      simp [tailOk, h2, h3]
    · rfl

theorem matchTail_tailOk : ∀ cs : List Char, tailOk (matchTail cs).1 = true
  | [] => matchFrac_tailOk []
  | [x] => matchFrac_tailOk [x]
  | [x, a] => matchFrac_tailOk [x, a]
  | [x, a, b] => matchFrac_tailOk [x, a, b]
  | x :: a :: b :: d :: rest => by
    simp only [matchTail]
    split
    · next h =>
      simp only [Bool.and_eq_true, decide_eq_true_eq] at h
      obtain ⟨⟨⟨h1, h2⟩, h3⟩, h4⟩ := h
      subst h1
      simp [tailOk, h2, h3, h4, matchTail_tailOk rest]
    · exact matchFrac_tailOk (x :: a :: b :: d :: rest)

theorem matchTail_head_not_digit : ∀ (cs : List Char) (y : Char)
    (u : List Char), (matchTail cs).1 = y :: u → y.isDigit = false := by
  intro cs y u h
  have ht := matchTail_tailOk cs
  rw [h] at ht
  rw [tailOk.eq_def] at ht
  dsimp only at ht
  by_cases hy : y = ','
  · subst hy; decide
  · by_cases hy2 : y = '.'
    · subst hy2; decide
    · rw [if_neg hy, if_neg hy2] at ht
      cases ht

/-- Inversion of `tailOk` on a non-empty list. -/
theorem tailOk_inv (x : Char) (xs : List Char)
    (h : tailOk (x :: xs) = true) :
    (x = ',' ∧ ∃ a b c r, xs = a :: b :: c :: r
        ∧ (a.isDigit && b.isDigit && c.isDigit && tailOk r) = true)
    ∨ (x = '.' ∧ ∃ a b, xs = [a, b] ∧ (a.isDigit && b.isDigit) = true) := by
  rw [tailOk.eq_def] at h
  dsimp only at h
  by_cases hx : x = ','
  · rw [if_pos hx] at h
    left
    refine ⟨hx, ?_⟩
    rcases xs with _ | ⟨a, _ | ⟨b, _ | ⟨c, r⟩⟩⟩
    · cases h
    · cases h
    · cases h
    · exact ⟨a, b, c, r, rfl, h⟩
  · rw [if_neg hx] at h
    by_cases hx2 : x = '.'
    · rw [if_pos hx2] at h
      right
      refine ⟨hx2, ?_⟩
      rcases xs with _ | ⟨a, _ | ⟨b, _ | ⟨c, r⟩⟩⟩
      · cases h
      · cases h
      · exact ⟨a, b, rfl, h⟩
      · cases h
    · rw [if_neg hx2] at h
      cases h

theorem tailOk_single (x : Char) (h : tailOk [x] = true) : False := by
  rcases tailOk_inv x [] h with ⟨_, a, b, c, r, heq, _⟩ | ⟨_, a, b, heq, _⟩ <;>
    simp at heq

theorem tailOk_pair (x a : Char) (h : tailOk [x, a] = true) : False := by
  rcases tailOk_inv x [a] h with ⟨_, a', b', c', r', heq, _⟩ |
    ⟨_, a', b', heq, _⟩ <;> simp at heq

theorem tailOk_triple (x a b : Char) (h : tailOk [x, a, b] = true) :
    x = '.' ∧ a.isDigit = true ∧ b.isDigit = true := by
  rcases tailOk_inv x [a, b] h with ⟨_, a', b', c', r', heq, _⟩ |
    ⟨hx, a', b', heq, hcond⟩
  · simp at heq
  · obtain ⟨ha, hb⟩ := by simpa using heq
    subst ha; subst hb
    simp only [Bool.and_eq_true] at hcond
    exact ⟨hx, hcond.1, hcond.2⟩

theorem tailOk_ge4 (x a b c : Char) (r : List Char)
    (h : tailOk (x :: a :: b :: c :: r) = true) :
    x = ',' ∧ a.isDigit = true ∧ b.isDigit = true ∧ c.isDigit = true
      ∧ tailOk r = true := by
  rcases tailOk_inv x (a :: b :: c :: r) h with
    ⟨hx, a', b', c', r', heq, hcond⟩ | ⟨_, a', b', heq, _⟩
  · obtain ⟨ha, hb, hc, hr⟩ := by simpa using heq
    subst ha; subst hb; subst hc; subst hr
    simp only [Bool.and_eq_true] at hcond
    exact ⟨hx, hcond.1.1.1, hcond.1.1.2, hcond.1.2, hcond.2⟩
  · simp at heq

theorem matchTail_max : ∀ (cs : List Char) (j : Nat), j ≤ cs.length →
    tailOk (cs.take j) = true → j ≤ (matchTail cs).1.length
  | [], j, hj, _ => Nat.le_trans hj (Nat.zero_le _)
  | [x], j, hj, ht => by
    simp only [List.length_cons, List.length_nil] at hj
    rcases j with _ | j1
    · exact Nat.zero_le _
    · have h0 : j1 = 0 := by omega
      subst h0
      simp only [List.take_succ_cons, List.take_zero] at ht
      exact (tailOk_single x ht).elim
  | [x, a], j, hj, ht => by
    simp only [List.length_cons, List.length_nil] at hj
    rcases j with _ | _ | j2
    · exact Nat.zero_le _
    · simp only [List.take_succ_cons, List.take_zero] at ht
      exact (tailOk_single x ht).elim
    · have h0 : j2 = 0 := by omega
      subst h0
      simp only [List.take_succ_cons, List.take_zero] at ht
      exact (tailOk_pair x a ht).elim
  | [x, a, b], j, hj, ht => by
    simp only [List.length_cons, List.length_nil] at hj
    simp only [matchTail, matchFrac]
    split
    · next hfrac =>
      simp only [List.length_cons, List.length_nil]
      omega
    · next hfrac =>
      rcases j with _ | _ | _ | j3
      · exact Nat.zero_le _
      · simp only [List.take_succ_cons, List.take_zero] at ht
        exact (tailOk_single x ht).elim
      · simp only [List.take_succ_cons, List.take_zero] at ht
        exact (tailOk_pair x a ht).elim
      · have h0 : j3 = 0 := by omega
        subst h0
        simp only [List.take_succ_cons, List.take_zero] at ht
        obtain ⟨hx, ha, hb⟩ := tailOk_triple x a b ht
        exact absurd (by simp [hx, ha, hb]) hfrac
  | x :: a :: b :: d :: rest, j, hj, ht => by
    simp only [List.length_cons] at hj
    simp only [matchTail]
    split
    · next hgrp =>
      simp only [List.length_cons]
      rcases j with _ | _ | _ | _ | j4
      · omega
      · omega
      · omega
      · omega
      · simp only [List.take_succ_cons] at ht
        simp only [Bool.and_eq_true, decide_eq_true_eq] at hgrp
        obtain ⟨⟨⟨hx, ha⟩, hb⟩, hd⟩ := hgrp
        subst hx
        obtain ⟨_, _, _, _, htail⟩ := tailOk_ge4 ',' a b d (rest.take j4) ht
        have hlen : j4 ≤ rest.length := by omega
        have hrec := matchTail_max rest j4 hlen htail
        omega
    · next hgrp =>
      simp only [matchFrac]
      split
      · next hfrac =>
        simp only [List.length_cons, List.length_nil]
        rcases j with _ | _ | _ | _ | j4
        · omega
        · omega
        · omega
        · omega
        · simp only [List.take_succ_cons] at ht
          simp only [Bool.and_eq_true, decide_eq_true_eq] at hfrac
          obtain ⟨⟨hx, ha⟩, hb⟩ := hfrac
          subst hx
          obtain ⟨hcon, _⟩ := tailOk_ge4 '.' a b d (rest.take j4) ht
          exact absurd hcon (by decide)
      · next hfrac =>
        rcases j with _ | _ | _ | _ | j4
        · exact Nat.zero_le _
        · simp only [List.take_succ_cons, List.take_zero] at ht
          exact (tailOk_single x ht).elim
        · simp only [List.take_succ_cons, List.take_zero] at ht
          exact (tailOk_pair x a ht).elim
        · simp only [List.take_succ_cons, List.take_zero] at ht
          obtain ⟨hx, ha, hb⟩ := tailOk_triple x a b ht
          exact absurd (by simp [hx, ha, hb]) hfrac
        · simp only [List.take_succ_cons] at ht
          obtain ⟨hx, ha, hb, hd, _⟩ := tailOk_ge4 x a b d (rest.take j4) ht
          exact absurd (by simp [hx, ha, hb, hd]) hgrp

theorem tw_append {p : Char → Bool} : ∀ (ds u : List Char),
    (∀ c ∈ ds, p c = true) → (∀ y v, u = y :: v → p y = false) →
    (ds ++ u).takeWhile p = ds ∧ (ds ++ u).dropWhile p = u
  | [], u, _, hu => by
    cases u with
    | nil => exact ⟨rfl, rfl⟩
    | cons y v =>
      have hy := hu y v rfl
      simp [List.takeWhile_cons, List.dropWhile_cons, hy]
  | a :: ds, u, hds, hu => by
    have ha : p a = true := hds a (List.mem_cons_self a ds)
    have ih := tw_append ds u (fun c hc => hds c (List.mem_cons_of_mem a hc)) hu
    simp [List.takeWhile_cons, List.dropWhile_cons, ha, ih.1, ih.2]

theorem dropWhile_head_false {p : Char → Bool} : ∀ (l : List Char) (y : Char)
    (v : List Char), l.dropWhile p = y :: v → p y = false
  | [], y, v, h => by simp at h
  | a :: l, y, v, h => by
    rw [List.dropWhile_cons] at h
    split at h
    · exact dropWhile_head_false l y v h
    · next hpa =>
      injection h with h1 _
      subst h1
      simpa using hpa

/-- No prefix of `'$' :: rest.take m` longer than the greedy match is in
the mandatory-`$` token language. -/
theorem reMatchAt_max (rest : List Char) (m : Nat)
    (hm1 : (rest.takeWhile Char.isDigit).length
        + (matchTail (rest.dropWhile Char.isDigit)).1.length < m)
    (hm2 : m ≤ rest.length) :
    amountTok true ('$' :: rest.take m) = false := by
  have hsplit := List.takeWhile_append_dropWhile Char.isDigit rest
  have hrestlen := congrArg List.length hsplit
  simp only [List.length_append] at hrestlen
  have ht_app := matchTail_append (rest.dropWhile Char.isDigit)
  have htlen := congrArg List.length ht_app
  simp only [List.length_append] at htlen
  have htake : rest.take m = rest.takeWhile Char.isDigit
      ++ (rest.dropWhile Char.isDigit).take
          (m - (rest.takeWhile Char.isDigit).length) := by
    conv_lhs => rw [← hsplit]
    rw [List.take_append_eq_append_take,
      List.take_of_length_le (by omega)]
  cases hr1 : rest.dropWhile Char.isDigit with
  | nil =>
    rw [hr1] at hrestlen htlen
    simp only [List.length_nil] at hrestlen htlen
    omega
  | cons y v =>
    have hy : Char.isDigit y = false := dropWhile_head_false rest y v hr1
    rw [hr1] at htake hrestlen htlen
    simp only [List.length_cons] at hrestlen htlen
    obtain ⟨k, hk⟩ : ∃ k, m - (rest.takeWhile Char.isDigit).length = k + 1 :=
      ⟨m - (rest.takeWhile Char.isDigit).length - 1, by omega⟩
    rw [hk, List.take_succ_cons] at htake
    have htw := tw_append (p := Char.isDigit)
      (rest.takeWhile Char.isDigit) (y :: v.take k)
      (fun c hc => List.mem_takeWhile_imp hc)
      (fun y' v' h' => by injection h' with h1 _; subst h1; exact hy)
    simp only [amountTok]
    rw [if_pos trivial, htake, htw.1, htw.2]
    have hfalse : tailOk (y :: v.take k) = false := by
      cases hmax : tailOk (y :: v.take k) with
      | false => rfl
      | true =>
        have hb : k + 1 ≤ (y :: v).length := by
          simp only [List.length_cons]
          omega
        have hrec := matchTail_max (y :: v) (k + 1) hb
          (by rw [List.take_succ_cons]; exact hmax)
        rw [← hr1] at hrec
        omega
    rw [hfalse]
    simp

theorem reMatchAt_some_spec (cs tok r : List Char)
    (h : reMatchAt cs = some (tok, r)) :
    tok ++ r = cs ∧ amountTok true tok = true ∧ 1 ≤ tok.length ∧
      ∀ j, tok.length < j → j ≤ cs.length →
        amountTok true (cs.take j) = false := by
  cases cs with
  | nil => simp [reMatchAt] at h
  | cons c rest =>
    simp only [reMatchAt] at h
    by_cases hc : c = '$'
    · subst hc
      rw [if_pos rfl] at h
      by_cases hds : (rest.takeWhile Char.isDigit).isEmpty
      · rw [if_pos hds] at h; cases h
      · rw [if_neg hds] at h
        rw [Option.some.injEq, Prod.mk.injEq] at h
        obtain ⟨htok, hr⟩ := h
        subst htok; subst hr
        have hsplit := List.takeWhile_append_dropWhile Char.isDigit rest
        have ht_app := matchTail_append (rest.dropWhile Char.isDigit)
        have htw := tw_append (p := Char.isDigit)
          (rest.takeWhile Char.isDigit)
          (matchTail (rest.dropWhile Char.isDigit)).1
          (fun c hc => List.mem_takeWhile_imp hc)
          (fun y v hy => matchTail_head_not_digit _ y v hy)
        refine ⟨?_, ?_, by simp, ?_⟩
        · rw [List.cons_append, List.append_assoc, ht_app, hsplit]
        · simp only [amountTok]
          rw [if_pos trivial, htw.1, htw.2]
          have hds2 : (rest.takeWhile Char.isDigit).isEmpty = false := by
            simpa using hds
          simp [hds2, matchTail_tailOk]
        · intro j hj1 hj2
          obtain ⟨m, hm⟩ : ∃ m, j = m + 1 := ⟨j - 1, by omega⟩
          subst hm
          rw [List.take_succ_cons]
          simp only [List.length_cons, List.length_append] at hj1 hj2
          exact reMatchAt_max rest m (by omega) (by omega)
    · rw [if_neg hc] at h; cases h

theorem reMatchAt_none_spec (cs : List Char) (h : reMatchAt cs = none) :
    ∀ j, 1 ≤ j → amountTok true (cs.take j) = false := by
  intro j hj
  cases cs with
  | nil =>
    rw [List.take_nil]
    rfl
  | cons c rest =>
    obtain ⟨m, hm⟩ : ∃ m, j = m + 1 := ⟨j - 1, by omega⟩
    subst hm
    rw [List.take_succ_cons]
    by_cases hc : c = '$'
    · subst hc
      simp only [reMatchAt] at h
      rw [if_pos trivial] at h
      by_cases hds : (rest.takeWhile Char.isDigit).isEmpty
      · simp only [amountTok]
        rw [if_pos trivial]
        have hemp : ((rest.take m).takeWhile Char.isDigit).isEmpty = true := by
          cases rest with
          | nil => simp
          | cons y v =>
            rw [List.takeWhile_cons] at hds
            split at hds
            · simp at hds
            · next hy =>
              cases m with
              | zero => simp
              | succ k =>
                rw [List.take_succ_cons, List.takeWhile_cons, if_neg hy]
                rfl
        rw [hemp]
        rfl
      · rw [if_neg hds] at h; cases h
    · simp only [amountTok]
      rw [if_neg hc]
      rfl

theorem tryLens_eq_zero (P : List Char → Bool) (cs : List Char) :
    ∀ n, (∀ j, 1 ≤ j → j ≤ n → P (cs.take j) = false) → tryLens P cs n = 0
  | 0, _ => rfl
  | n + 1, h => by
    simp only [tryLens]
    rw [h (n + 1) (by omega) (Nat.le_refl _)]
    simp only [Bool.false_eq_true, if_false]
    exact tryLens_eq_zero P cs n (fun j h1 h2 => h j h1 (by omega))

theorem tryLens_eq_of_max (P : List Char → Bool) (cs : List Char) (m : Nat)
    (hP : P (cs.take m) = true) :
    ∀ n, m ≤ n → (∀ j, m < j → j ≤ n → P (cs.take j) = false) →
      tryLens P cs n = m
  | 0, hmn, _ => by
    have h0 : m = 0 := by omega
    subst h0
    rfl
  | n + 1, hmn, hmax => by
    by_cases hm : m = n + 1
    · subst hm
      simp only [tryLens]
      rw [hP]
      simp
    · have h1 : P (cs.take (n + 1)) = false :=
        hmax (n + 1) (by omega) (Nat.le_refl _)
      simp only [tryLens]
      rw [h1]
      simp only [Bool.false_eq_true, if_false]
      exact tryLens_eq_of_max P cs m hP n (by omega)
        (fun j ha hb => hmax j ha (by omega))

/-- At every position the longest prefix in the mandatory-`$` language
is exactly the greedy regex match. -/
theorem longestMatchLen_eq (cs : List Char) :
    longestMatchLen (amountTok true) cs = reMatchLen cs := by
  unfold longestMatchLen reMatchLen
  cases h : reMatchAt cs with
  | none =>
    exact tryLens_eq_zero _ cs cs.length
      (fun j h1 _ => reMatchAt_none_spec cs h j h1)
  | some p =>
    obtain ⟨tok, r⟩ := p
    obtain ⟨happ, hamt, _, hmax⟩ := reMatchAt_some_spec cs tok r h
    have htake : cs.take tok.length = tok := by
      rw [← happ]; exact List.take_left tok r
    have hle : tok.length ≤ cs.length := by
      rw [← happ]; simp
    exact tryLens_eq_of_max _ cs tok.length (by rw [htake]; exact hamt)
      cs.length hle hmax

/-- The `findall` scan and the specification-side longest-match scan
coincide for the mandatory-`$` token language, at every skip state. -/
theorem findGo_eq_scanGo : ∀ (cs : List Char) (k : Nat),
    reFindGo cs k = scanGo (amountTok true) cs k
  | [], _ => rfl
  | c :: rest, Nat.succ s => by
    simp only [reFindGo, scanGo]
    exact findGo_eq_scanGo rest s
  | c :: rest, 0 => by
    have hk := longestMatchLen_eq (c :: rest)
    simp only [reFindGo, scanGo, hk]
    by_cases h : reMatchLen (c :: rest) = 0
    · rw [if_pos h, if_pos h]
      exact findGo_eq_scanGo rest 0
    · rw [if_neg h, if_neg h,
        findGo_eq_scanGo rest (reMatchLen (c :: rest) - 1)]

/-- C1 counterexample: on the normalized body `"1234.56"` the source
extraction returns nothing — the regex requires a leading `$` — while
the claimed optional-`$` pattern scan collects `"1234.56"`. -/
theorem c1_counterexample :
    reFindAmounts "1234.56" = []
    ∧ specAmounts false "1234.56" = ["1234.56"]
    ∧ reFindAmounts "1234.56" ≠ specAmounts false "1234.56" := by
  decide

/-- C1 amended: for every normalized (escaped) body text, the extracted
monetary-amount sequence consists of exactly the non-overlapping
left-to-right matches of the pattern "mandatory `$`, one or more digits
optionally grouped in triples separated by commas, optionally followed
by a decimal point and exactly two digits", in order of first
appearance with duplicates retained; a currency-symbol-free number such
as `1234.56` is not collected, and no substring not matching the
pattern appears in the sequence. -/
theorem c1_amended_amounts (s : String) :
    reFindAmounts s = specAmounts true s := by
  unfold reFindAmounts specAmounts
  rw [findGo_eq_scanGo]

end GmailScreener
